import Mathlib

/-!
Verification of the occurrence-expansion, stream-merging and period-filtering
core of django-eventtools (src/eventtools/models.py).

Shallow embedding conventions:
* A Python naive `datetime` (second granularity) is a `Nat`: the number of
  seconds since 0001-01-01T00:00:00 (proleptic Gregorian calendar, the range
  of Python datetimes).  `datetime(1,1,1,0,0)` is `0`.  Comparison of
  datetimes coincides with `Nat` comparison.
* A Python `date` is a `Nat`: the number of days since 0001-01-01.
* Calendar conversions `daysFromCivil` / `civilFromDays` are the standard
  arithmetic of the proleptic Gregorian calendar.
* The `dateutil.rrule` generator for `DAILY/WEEKLY/MONTHLY/YEARLY` with
  `dtstart` and `count` is modelled by `rruleStarts`: candidate instants are
  enumerated in pattern order (for monthly/yearly, months lacking the start
  day-of-month are skipped, exactly as `rrule` does), generation stops when
  the year would exceed 9999 (`datetime.MAXYEAR`) and at most `count`
  instants are produced.
* Python generators are modelled as the (finite) lists of their yields;
  querysets are lists of records.
-/

namespace Eventtools

/-! ### Proleptic Gregorian calendar arithmetic -/

def isLeap (y : Nat) : Bool :=
  y % 4 == 0 && (!(y % 100 == 0) || y % 400 == 0)

def daysInMonth (y m : Nat) : Nat :=
  match m with
  | 2 => if isLeap y then 29 else 28
  | 4 | 6 | 9 | 11 => 30
  | _ => 31

/-- Days since 0001-01-01 of the civil date `(y, m, d)` (Hinnant's
`days_from_civil` algorithm, shifted to the year-1 epoch). -/
def daysFromCivil (y m d : Nat) : Nat :=
  let y' := if m ≤ 2 then y - 1 else y
  let era := y' / 400
  let yoe := y' % 400
  let doy := (153 * (if 2 < m then m - 3 else m + 9) + 2) / 5 + d - 1
  let doe := yoe * 365 + yoe / 4 - yoe / 100 + doy
  era * 146097 + doe - 306

/-- Civil date `(y, m, d)` of the day `n` days after 0001-01-01 (Hinnant's
`civil_from_days` algorithm, shifted to the year-1 epoch). -/
def civilFromDays (n : Nat) : Nat × Nat × Nat :=
  let z := n + 306
  let era := z / 146097
  let doe := z % 146097
  let yoe := (doe - doe / 1460 + doe / 36524 - doe / 146096) / 365
  let y := yoe + era * 400
  let doy := doe - (365 * yoe + yoe / 4 - yoe / 100)
  let mp := (5 * doy + 2) / 153
  let d := doy - (153 * mp + 2) / 5 + 1
  let m := if mp < 10 then mp + 3 else mp - 9
  (if m ≤ 2 then y + 1 else y, m, d)

/-- The datetime `y-m-d h:mi:s` as seconds since 0001-01-01T00:00. -/
def mkDT (y m d h mi s : Nat) : Nat :=
  daysFromCivil y m d * 86400 + h * 3600 + mi * 60 + s

/-- The date `y-m-d` as days since 0001-01-01. -/
def mkDate (y m d : Nat) : Nat := daysFromCivil y m d

/-- First instant after `datetime.MAXYEAR`: 10000-01-01T00:00. -/
def SECY10000 : Nat := mkDT 10000 1 1 0 0 0

/-- `datetime.min` = 0001-01-01T00:00, the default lower bound of
`rrule.between`. -/
def DTMIN : Nat := mkDT 1 1 1 0 0 0

/-- `datetime(9999, 12, 31, 23, 59)`, the default upper bound used by the
source for `rrule.between`. -/
def DTMAX : Nat := mkDT 9999 12 31 23 59 0

/-! ### The repeat vocabulary and the `rrule` generator -/

/-- `rrule.DAILY / WEEKLY / MONTHLY / YEARLY`, the repeat choices of
`BaseOccurrence.REPEAT_CHOICES`. -/
inductive Freq where
  | DAILY | WEEKLY | MONTHLY | YEARLY
deriving DecidableEq, Repr

/-- The `k`-th candidate instant of the repeat pattern `freq` anchored at
`start` (`none` when the pattern skips that slot: a month/year lacking the
start's day-of-month, as `rrule` does for monthly/yearly rules). -/
def freqCandidate (freq : Freq) (start : Nat) (k : Nat) : Option Nat :=
  match freq with
  | .DAILY => some (start + k * 86400)
  | .WEEKLY => some (start + k * 604800)
  | .MONTHLY =>
      let c := civilFromDays (start / 86400)
      let t := c.1 * 12 + (c.2.1 - 1) + k
      if c.2.2 ≤ daysInMonth (t / 12) (t % 12 + 1) then
        some (daysFromCivil (t / 12) (t % 12 + 1) c.2.2 * 86400 + start % 86400)
      else none
  | .YEARLY =>
      let c := civilFromDays (start / 86400)
      if c.2.2 ≤ daysInMonth (c.1 + k) c.2.1 then
        some (daysFromCivil (c.1 + k) c.2.1 c.2.2 * 86400 + start % 86400)
      else none

/-- Number of candidate slots whose year does not exceed `datetime.MAXYEAR`
(9999): `rrule` silently stops generating past that year. -/
def candidateBound (freq : Freq) (start : Nat) : Nat :=
  match freq with
  | .DAILY => (SECY10000 - start + 86399) / 86400
  | .WEEKLY => (SECY10000 - start + 604799) / 604800
  | .MONTHLY =>
      let c := civilFromDays (start / 86400)
      (9999 - c.1) * 12 + (12 - c.2.1) + 1
  | .YEARLY =>
      let c := civilFromDays (start / 86400)
      9999 - c.1 + 1

/-- `BaseOccurrence.REPEAT_MAX`. -/
def REPEAT_MAX : Nat := 200

/-- Enumerate candidates from slot `k` on, keeping at most `count` valid
ones, running through at most `fuel` slots. -/
def rruleAux (freq : Freq) (start : Nat) : Nat → Nat → Nat → List Nat
  | _, _, 0 => []
  | k, count, fuel + 1 =>
      if count = 0 then []
      else
        match freqCandidate freq start k with
        | some s => s :: rruleAux freq start (k + 1) (count - 1) fuel
        | none => rruleAux freq start (k + 1) count fuel

/-- The instants generated by
`rrule.rrule(freq, dtstart=start, count=REPEAT_MAX)`. -/
def rruleStarts (freq : Freq) (start : Nat) : List Nat :=
  rruleAux freq start 0 REPEAT_MAX (candidateBound freq start)

/-! ### Date-or-datetime inputs and `as_datetime` -/

/-- A "date or datetime" argument (the source's filters accept either). -/
inductive DOD where
  | date (day : Nat)
  | datetime (t : Nat)
deriving DecidableEq, Repr

/-- `as_datetime(d, end)`: a `date` is widened to 00:00:00, or 23:59:59 when
`end` is true; a `datetime` passes through unchanged. -/
def as_datetime (d : DOD) (isEnd : Bool) : Nat :=
  match d with
  | .date day => day * 86400 + (if isEnd then 86399 else 0)
  | .datetime t => t

/-! ### Occurrence rules (`BaseOccurrence`) -/

/-- An occurrence rule: the stored fields of `BaseOccurrence` plus its
`occurrence_data` payload. -/
structure Rule (α : Type) where
  start : Nat
  «end» : Nat
  «repeat» : Option Freq
  repeat_until : Option Nat
  occurrence_data : α
deriving DecidableEq, Repr

/-- The three `ValidationError` messages of `BaseOccurrence.clean`. -/
inductive CleanError where
  /-- "End must be after start" -/
  | endNotAfterStart
  /-- "Select a repeat interval, or remove the repeat until date" -/
  | repeatIntervalRequired
  /-- "Repeat until cannot be before the first occurrence" -/
  | repeatUntilBeforeStart
deriving DecidableEq, Repr

/-- `BaseOccurrence.clean`: the first failing check's error, `none` when the
record validates. -/
def Rule.clean {α : Type} (r : Rule α) : Option CleanError :=
  if r.«end» ≤ r.start then some .endNotAfterStart
  else
    match r.repeat_until with
    | none => none
    | some ru =>
        if r.«repeat» = none then some .repeatIntervalRequired
        else if ru < r.start / 86400 then some .repeatUntilBeforeStart
        else none

/-- A record passing validation. -/
def Rule.cleanOk {α : Type} (r : Rule α) : Prop := r.clean = none

instance {α : Type} (r : Rule α) : Decidable r.cleanOk := by
  unfold Rule.cleanOk; infer_instance

/-- `BaseOccurrence.all_occurrences`: expansion of one rule to its list of
`(start, end, occurrence_data)` instances, mirroring the source line by
line.  Instance ends are `occ_start + delta` with `delta = end - start`
(a signed timedelta, applied with truncation at the epoch, below which a
real Python datetime cannot go). -/
def Rule.all_occurrences {α : Type} (r : Rule α) (from_date to_date : Option DOD) :
    List (Nat × Nat × α) :=
  let fromN : Option Nat := from_date.map (fun f => as_datetime f false)
  let toN : Option Nat := to_date.map (fun t => as_datetime t true)
  match r.«repeat» with
  | none =>
      if (match fromN with | none => true | some f => decide (f ≤ r.start)) &&
         (match toN with | none => true | some t => decide (r.start ≤ t)) then
        [(r.start, r.«end», r.occurrence_data)]
      else []
  | some freq =>
      let delta : Int := (r.«end» : Int) - (r.start : Int)
      let repeater := rruleStarts freq r.start
      let toN : Option Nat :=
        match r.repeat_until with
        | some ru =>
            match toN with
            | none => some (as_datetime (.date ru) true)
            | some t =>
                if as_datetime (.date ru) true < t then
                  some (as_datetime (.date ru) true)
                else some t
        | none => toN
      let repeater :=
        match fromN, toN with
        | none, none => repeater
        | _, _ =>
            let lo : Int := match fromN with
              | some f => (f : Int) - delta
              | none => (DTMIN : Int)
            let hi : Int := match toN with
              | some t => (t : Int)
              | none => (DTMAX : Int)
            repeater.filter (fun s => decide (lo ≤ (s : Int)) && decide ((s : Int) ≤ hi))
      repeater.map (fun s => (s, ((s : Int) + delta).toNat, r.occurrence_data))

/-- `first_item`: the first yield of a generator, `none` when exhausted. -/
def first_item {γ : Type} (l : List γ) : Option γ := l.head?

/-- `BaseModel.next_occurrence` for a single occurrence record; `now` stands
for `datetime.now()`, used only when `from_date` is absent. -/
def Rule.next_occurrence {α : Type} (now : Nat) (r : Rule α)
    (from_date to_date : Option DOD) : Option (Nat × Nat × α) :=
  first_item (r.all_occurrences (some (from_date.getD (.datetime now))) to_date)

/-! ### `combine_occurrences`: the k-way merge

A generator with its buffered head is a pair `(head, rest)`; the merge
state is the source's `grouped` list.  Items are pairs whose first
component is the comparable start; occurrence triples `(start, end, data)`
are such pairs by associativity of `×`. -/

/-- Build the initial `grouped` list: one `(next, generator)` buffer per
input, dropping inputs that are exhausted immediately, in input order. -/
def initGroups {β : Type} : List (List (Nat × β)) → List ((Nat × β) × List (Nat × β))
  | [] => []
  | [] :: gs => initGroups gs
  | (x :: xs) :: gs => (x, xs) :: initGroups gs

/-- Advance a group past its buffered head: refill the buffer from the
generator, or drop the group when the generator is exhausted. -/
def advance {β : Type} : (Nat × β) × List (Nat × β) → List ((Nat × β) × List (Nat × β))
  | (_, []) => []
  | (_, y :: ys) => [(y, ys)]

/-- Select the group whose buffered head has the smallest first component.
The source scans `grouped` left to right replacing the best only on a
strictly smaller key, so the first group attaining the minimum wins;
`selectGroup` returns that group together with the groups before it and
after it.  -/
def selectGroup {β : Type} :
    (Nat × β) × List (Nat × β) → List ((Nat × β) × List (Nat × β)) →
      ((Nat × β) × List (Nat × β)) ×
        List ((Nat × β) × List (Nat × β)) × List ((Nat × β) × List (Nat × β))
  | g, [] => (g, [], [])
  | g, h :: hs =>
      let r := selectGroup h hs
      if r.1.1.1 < g.1.1 then (r.1, g :: r.2.1, r.2.2) else (g, [], h :: hs)

/-- Total number of items (buffered heads plus generator remainders) in a
merge state; the loop's termination measure. -/
def sizeGs {β : Type} (gs : List ((Nat × β) × List (Nat × β))) : Nat :=
  (gs.map (fun g => 1 + g.2.length)).sum

/-- The body of the merge loop, structurally recursive on `fuel` (the loop
terminates because the total item count strictly decreases at each yield;
`fuel` is that measure). -/
def mergeGroupsAux {β : Type} :
    Nat → List ((Nat × β) × List (Nat × β)) → Option Nat → List (Nat × β)
  | 0, _, _ => []
  | _, [], _ => []
  | fuel + 1, g :: gs, limit =>
      if limit = some 0 then []
      else
        (selectGroup g gs).1.1 ::
          mergeGroupsAux fuel
            ((selectGroup g gs).2.1 ++ advance (selectGroup g gs).1 ++ (selectGroup g gs).2.2)
            (limit.map (· - 1))

/-- The merge loop of `combine_occurrences`: repeatedly yield the buffered
head with the smallest start (first input wins ties), advance that group,
stop at `limit` yields or when all groups are exhausted. -/
def mergeGroups {β : Type} (gs : List ((Nat × β) × List (Nat × β)))
    (limit : Option Nat) : List (Nat × β) :=
  mergeGroupsAux (sizeGs gs) gs limit

/-- `combine_occurrences(generators, limit)`. -/
def combine_occurrences {β : Type} (generators : List (List (Nat × β)))
    (limit : Option Nat) : List (Nat × β) :=
  mergeGroups (initGroups generators) limit

/-! ### Querysets and the two-phase period filter

Querysets are lists of records; `filter`/`exclude`/`distinct` become list
filtering.  Django compares a `DateField` (`repeat_until`) against a
datetime by truncating the datetime to its date
(`DateField.get_prep_value` → `to_python` → `value.date()`). -/

/-- `filter_invalid(approx_qs, from_date, to_date)`: drop records whose
`next_occurrence` in the range is `None`.  `next` abstracts the record's
`next_occurrence` method (the querysets pass already-normalised datetimes
down to it). -/
def filter_invalid {ρ ι : Type} (next : ρ → Option DOD → Option DOD → Option ι)
    (approx_qs : List ρ) (from_date to_date : Option DOD) : List ρ :=
  approx_qs.filter (fun obj => (next obj from_date to_date).isSome)

/-- The stored-field predicate of `OccurrenceQuerySet.for_period`'s
`from_date` filter:
`end >= from | (repeat set & (repeat_until >= from.date() | repeat_until null))`. -/
def occFromPred {α : Type} (fN : Nat) (r : Rule α) : Bool :=
  decide (fN ≤ r.«end») ||
    (r.«repeat».isSome &&
      (match r.repeat_until with
       | some ru => decide (fN / 86400 ≤ ru)
       | none => true))

/-- `OccurrenceQuerySet.for_period(from_date, to_date, exact)`; `now` models
`datetime.now()` (consulted only through `next_occurrence` when the exact
phase runs, and there only if `from_date` were absent, which it never is). -/
def OccurrenceQuerySet.for_period {α : Type} (now : Nat) (qs : List (Rule α))
    (from_date to_date : Option DOD) (exact : Bool) : List (Rule α) :=
  let filtered_qs :=
    match to_date with
    | none => qs
    | some t => qs.filter (fun r => decide (r.start ≤ as_datetime t true))
  match from_date with
  | none => filtered_qs
  | some f =>
      let fN := as_datetime f false
      let filtered_qs := filtered_qs.filter (occFromPred fN)
      if exact then
        filter_invalid (Rule.next_occurrence now) filtered_qs
          (some (.datetime fN)) (to_date.map (fun t => .datetime (as_datetime t true)))
      else filtered_qs

/-- `BaseQuerySet.all_occurrences` for occurrence querysets: approximate
period filter, expand every survivor, merge with the limit. -/
def OccurrenceQuerySet.all_occurrences {α : Type} (now : Nat) (qs : List (Rule α))
    (from_date to_date : Option DOD) (limit : Option Nat) : List (Nat × Nat × α) :=
  combine_occurrences
    ((OccurrenceQuerySet.for_period now qs from_date to_date false).map
      (fun obj => obj.all_occurrences from_date to_date))
    limit

/-- A `BaseEvent` record: its related set of occurrence rules. -/
structure Event (α : Type) where
  occurrence_set : List (Rule α)
deriving DecidableEq, Repr

/-- `BaseEvent.all_occurrences`: delegate to the occurrence queryset. -/
def Event.all_occurrences {α : Type} (now : Nat) (e : Event α)
    (from_date to_date : Option DOD) (limit : Option Nat) : List (Nat × Nat × α) :=
  OccurrenceQuerySet.all_occurrences now e.occurrence_set from_date to_date limit

/-- `BaseModel.next_occurrence` for an event. -/
def Event.next_occurrence {α : Type} (now : Nat) (e : Event α)
    (from_date to_date : Option DOD) : Option (Nat × Nat × α) :=
  first_item (e.all_occurrences now (some (from_date.getD (.datetime now))) to_date none)

/-- `EventQuerySet.for_period(from_date, to_date, exact)`: the same two
phases, with stored-field conditions reaching through the
`occurrence` relation (a single `filter` call, so one related occurrence
must satisfy the whole condition). -/
def EventQuerySet.for_period {α : Type} (now : Nat) (qs : List (Event α))
    (from_date to_date : Option DOD) (exact : Bool) : List (Event α) :=
  let filtered_qs :=
    match to_date with
    | none => qs
    | some t =>
        qs.filter (fun e =>
          e.occurrence_set.any (fun r => decide (r.start ≤ as_datetime t true)))
  match from_date with
  | none => filtered_qs
  | some f =>
      let fN := as_datetime f false
      let filtered_qs := filtered_qs.filter (fun e => e.occurrence_set.any (occFromPred fN))
      if exact then
        filter_invalid (Event.next_occurrence now) filtered_qs
          (some (.datetime fN)) (to_date.map (fun t => .datetime (as_datetime t true)))
      else filtered_qs

/-! ### Auxiliary definitions for the verification -/

/-- The items held in a merge state: each group's buffered head followed by
its generator remainder, in state order. -/
def itemsGs {β : Type} (gs : List ((Nat × β) × List (Nat × β))) : List (Nat × β) :=
  (gs.map (fun g => g.1 :: g.2)).flatten

/-- Input streams tagged by their position: stream number `i` (counting
from `b`) carries `i` in every item's second component.  Used to state that
the merge preserves each source's relative order and breaks ties by input
order. -/
def TaggedFrom : Nat → List (List (Nat × Nat)) → Prop
  | _, [] => True
  | b, l :: ls => (∀ x ∈ l, x.2 = b) ∧ TaggedFrom (b + 1) ls

/-- The amended claim C4's description of repeating-rule expansion: the
effective upper bound is `min(to_date, end-of-day(repeat_until))` when both
are present, whichever one is present otherwise; the lower edge is
`from_date - (end - start)`; when a window is applied with one edge absent
the generator's sentinels (0001-01-01T00:00 below, 9999-12-31T23:59 above)
stand in for it; generated starts are filtered inclusively; no filtering
happens when neither `from_date`, `to_date` nor `repeat_until` is
supplied. -/
def expandRepeatingSpec {α : Type} (r : Rule α) (freq : Freq)
    (from_date to_date : Option DOD) : List (Nat × Nat × α) :=
  let duration : Int := (r.«end» : Int) - (r.start : Int)
  let ub : Option Nat :=
    match to_date.map (fun t => as_datetime t true), r.repeat_until with
    | some t, some ru => some (min t (ru * 86400 + 86399))
    | some t, none => some t
    | none, some ru => some (ru * 86400 + 86399)
    | none, none => none
  let starts := rruleStarts freq r.start
  let starts :=
    if from_date.isNone && ub.isNone then starts
    else
      starts.filter (fun s =>
        decide ((match from_date with
                 | some f => (as_datetime f false : Int) - duration
                 | none => (DTMIN : Int)) ≤ (s : Int)) &&
        decide ((s : Int) ≤ (ub.getD DTMAX : Int)))
  starts.map (fun s => (s, ((s : Int) + duration).toNat, r.occurrence_data))

/-- Day number of the civil month-slot `s` (months counted from March of
year 0, the era basis of `daysFromCivil`): the month-level core of the
conversion, used to prove that pattern candidates increase. -/
def dayval (s : Nat) : Nat :=
  ((s / 12) / 400) * 146097 +
    ((s / 12) % 400 * 365 + (s / 12) % 400 / 4 - (s / 12) % 400 / 100 +
      (153 * (s % 12) + 2) / 5)

/-! ### Concrete records for the claim scenarios -/

/-- The claim C1 rule: 2021-01-01 09:00–10:00, weekly until 2021-01-22. -/
def ruleC1 : Rule Unit :=
  { start := mkDT 2021 1 1 9 0 0, «end» := mkDT 2021 1 1 10 0 0,
    «repeat» := some .WEEKLY, repeat_until := some (mkDate 2021 1 22),
    occurrence_data := () }

/-- The claim C2 scenario rule A: one-off 2021-02-01 08:00–09:00. -/
def ruleA : Rule Unit :=
  { start := mkDT 2021 2 1 8 0 0, «end» := mkDT 2021 2 1 9 0 0,
    «repeat» := none, repeat_until := none, occurrence_data := () }

/-- The claim C2 scenario rule B: one-off 2021-02-01 07:00–08:00. -/
def ruleB : Rule Unit :=
  { start := mkDT 2021 2 1 7 0 0, «end» := mkDT 2021 2 1 8 0 0,
    «repeat» := none, repeat_until := none, occurrence_data := () }

/-- A daily 09:00–10:00 rule, used to exhibit that `next_occurrence` can
return an instance starting before `from_date`. -/
def ruleC3 : Rule Unit :=
  { start := mkDT 2021 1 1 9 0 0, «end» := mkDT 2021 1 1 10 0 0,
    «repeat» := some .DAILY, repeat_until := none, occurrence_data := () }

/-- 09:30 on the second day of `ruleC3`: between the day's instance start
and end. -/
def fromC3 : DOD := .datetime (mkDT 2021 1 2 9 30 0)

/-- A valid daily rule in the final minute of year 9999: its only generated
start lies beyond the source's upper sentinel `datetime(9999,12,31,23,59)`. -/
def ruleC4 : Rule Unit :=
  { start := mkDT 9999 12 31 23 59 30, «end» := mkDT 9999 12 31 23 59 59,
    «repeat» := some .DAILY, repeat_until := none, occurrence_data := () }

/-- The window lower bound for the `ruleC4` scenario. -/
def fromC4 : DOD := .date (mkDate 9999 12 31)

/-- A valid three-day-long daily rule repeating until 2021-01-10: its last
instances overlap windows starting after the repetitions end. -/
def ruleC5 : Rule Unit :=
  { start := mkDT 2021 1 1 9 0 0, «end» := mkDT 2021 1 4 9 0 0,
    «repeat» := some .DAILY, repeat_until := some (mkDate 2021 1 10),
    occurrence_data := () }

/-- Window 2021-01-12 .. 2021-01-20 for the `ruleC5` scenario. -/
def fromC5 : DOD := .date (mkDate 2021 1 12)

/-- Upper bound of the `ruleC5` scenario window. -/
def toC5 : DOD := .date (mkDate 2021 1 20)

/-- An invalid record: `repeat_until` set while `repeat` is absent. -/
def ruleC9 : Rule Unit :=
  { start := mkDT 2021 1 1 9 0 0, «end» := mkDT 2021 1 1 10 0 0,
    «repeat» := none, repeat_until := some (mkDate 2021 3 1),
    occurrence_data := () }

/-! ## Theorems -/

/-! ### Structure of the generated starts -/

theorem rruleAux_eq (freq : Freq) (start : Nat) :
    ∀ fuel k count, rruleAux freq start k count fuel
      = ((List.range' k fuel).filterMap (freqCandidate freq start)).take count := by
  intro fuel
  induction fuel with
  | zero => intro k count; simp [rruleAux]
  | succ fuel ih =>
      intro k count
      rw [List.range'_succ, List.filterMap_cons]
      rcases hc : freqCandidate freq start k with _ | s
      · cases count with
        | zero => simp [rruleAux, hc]
        | succ c => simp [rruleAux, hc, ih]
      · cases count with
        | zero => simp [rruleAux, hc]
        | succ c => simp [rruleAux, hc, ih]

theorem rruleStarts_eq (freq : Freq) (start : Nat) :
    rruleStarts freq start
      = ((List.range' 0 (candidateBound freq start)).filterMap
          (freqCandidate freq start)).take REPEAT_MAX := by
  rw [rruleStarts, rruleAux_eq]

theorem rruleStarts_length_le (freq : Freq) (start : Nat) :
    (rruleStarts freq start).length ≤ REPEAT_MAX := by
  rw [rruleStarts_eq]
  exact (List.length_take _ _).trans_le (Nat.min_le_left _ _)

/-! ### Claims C1, C6, C7, C8, C9, C10 -/

/-- Claim C1: the rule 2021-01-01T09:00–10:00, weekly until 2021-01-22,
expanded from 2021-01-10 to 2021-01-31, yields exactly the instances
(2021-01-15T09:00, 2021-01-15T10:00) and (2021-01-22T09:00,
2021-01-22T10:00), in that order. -/
theorem claim1 :
    Rule.all_occurrences ruleC1 (some (.date (mkDate 2021 1 10)))
        (some (.date (mkDate 2021 1 31)))
      = [(mkDT 2021 1 15 9 0 0, mkDT 2021 1 15 10 0 0, ()),
         (mkDT 2021 1 22 9 0 0, mkDT 2021 1 22 10 0 0, ())] := by decide

/-- Claim C6: expansion of a repeating rule yields at most `REPEAT_MAX`
(200) instances for any window, the generated start list is itself capped
at 200, and every yielded instance's start comes from that capped list
(the window bounds are applied after the cap). -/
theorem claim6 {α : Type} (r : Rule α) (freq : Freq) (h : r.«repeat» = some freq)
    (from_date to_date : Option DOD) :
    (r.all_occurrences from_date to_date).length ≤ REPEAT_MAX
    ∧ (rruleStarts freq r.start).length ≤ REPEAT_MAX
    ∧ ∀ inst ∈ r.all_occurrences from_date to_date, inst.1 ∈ rruleStarts freq r.start := by
  refine ⟨?_, rruleStarts_length_le freq r.start, ?_⟩
  · simp only [Rule.all_occurrences, h, List.length_map]
    split
    · exact rruleStarts_length_le freq r.start
    · exact (List.length_filter_le _ _).trans (rruleStarts_length_le freq r.start)
  · intro inst hmem
    simp only [Rule.all_occurrences, h, List.mem_map] at hmem
    obtain ⟨s, hs, rfl⟩ := hmem
    revert hs
    split
    · exact fun hs => hs
    · exact fun hs => List.mem_of_mem_filter hs

theorem claim6_witness :
    (Rule.all_occurrences ruleC3 none none).length ≤ REPEAT_MAX
    ∧ (rruleStarts .DAILY ruleC3.start).length ≤ REPEAT_MAX
    ∧ ∀ inst ∈ Rule.all_occurrences ruleC3 none none,
        inst.1 ∈ rruleStarts .DAILY ruleC3.start :=
  claim6 ruleC3 .DAILY rfl none none

/-- Claim C7: a non-repeating rule expands to its own single
`(start, end, payload)` instance exactly when `start` is at or after the
start-of-day widening of `from_date` (when given) and at or before the
end-of-day widening of `to_date` (when given), and to nothing otherwise. -/
theorem claim7 {α : Type} (r : Rule α) (h : r.«repeat» = none)
    (from_date to_date : Option DOD) :
    r.all_occurrences from_date to_date =
      if ((match from_date with
           | none => true
           | some (.date d) => decide (d * 86400 ≤ r.start)
           | some (.datetime t) => decide (t ≤ r.start)) &&
          (match to_date with
           | none => true
           | some (.date d) => decide (r.start ≤ d * 86400 + 86399)
           | some (.datetime t) => decide (r.start ≤ t))) = true
      then [(r.start, r.«end», r.occurrence_data)] else [] := by
  simp only [Rule.all_occurrences, h]
  rcases from_date with _ | (d | t) <;> rcases to_date with _ | (d2 | t2) <;>
    simp [as_datetime]

theorem claim7_witness :
    Rule.all_occurrences ruleA none none
      = if (true && true) = true
        then [(ruleA.start, ruleA.«end», ruleA.occurrence_data)] else [] :=
  claim7 ruleA rfl none none

/-- Claim C8: every instance yielded by expansion of a (valid) rule spans
exactly the rule's duration `end - start` and carries the rule's payload
unmodified. -/
theorem claim8 {α : Type} (r : Rule α) (h : r.start < r.«end»)
    (from_date to_date : Option DOD) :
    ∀ inst ∈ r.all_occurrences from_date to_date,
      (inst.2.1 : Int) - (inst.1 : Int) = (r.«end» : Int) - (r.start : Int)
      ∧ inst.2.2 = r.occurrence_data := by
  intro inst hmem
  rcases hr : r.«repeat» with _ | freq
  · simp only [Rule.all_occurrences, hr] at hmem
    split at hmem
    · rcases List.mem_singleton.mp hmem with rfl
      exact ⟨rfl, rfl⟩
    · simp at hmem
  · simp only [Rule.all_occurrences, hr, List.mem_map] at hmem
    obtain ⟨s, hs, rfl⟩ := hmem
    refine ⟨?_, rfl⟩
    have hnn : (0 : Int) ≤ (s : Int) + ((r.«end» : Int) - (r.start : Int)) := by omega
    rw [Int.toNat_of_nonneg hnn]
    omega

theorem claim8_witness :
    ((mkDT 2021 1 2 10 0 0 : Nat) : Int) - ((mkDT 2021 1 2 9 0 0 : Nat) : Int)
      = (ruleC3.«end» : Int) - (ruleC3.start : Int)
    ∧ () = ruleC3.occurrence_data :=
  claim8 ruleC3 (by decide) none none
    (mkDT 2021 1 2 9 0 0, mkDT 2021 1 2 10 0 0, ()) (by decide)

/-- Claim C9: `clean` passes exactly when `end > start`, `repeat_until`
requires `repeat`, and `repeat_until` is not before the calendar date of
`start`; and an otherwise-valid rule with `repeat` absent but
`repeat_until` set fails with the repeat-interval-required error. -/
theorem claim9 {α : Type} (r : Rule α) :
    (r.clean = none ↔
      (r.start < r.«end»
        ∧ (r.repeat_until.isSome → r.«repeat».isSome)
        ∧ (∀ ru, r.repeat_until = some ru → r.start / 86400 ≤ ru)))
    ∧ (∀ ru, r.repeat_until = some ru → r.«repeat» = none → r.start < r.«end» →
        r.clean = some .repeatIntervalRequired) := by
  unfold Rule.clean
  rcases hru : r.repeat_until with _ | ru <;> rcases hrep : r.«repeat» with _ | f <;>
    split_ifs <;> simp_all

theorem claim9_witness :
    Rule.clean ruleC9 = some .repeatIntervalRequired :=
  (claim9 ruleC9).2 (mkDate 2021 3 1) rfl rfl (by decide)

/-- Claim C10: with `from_date` absent, `for_period` ignores `exact`
entirely, for both event and bare-occurrence collections: the
expansion-based exact phase runs only when `from_date` is supplied. -/
theorem claim10 {α : Type} (now : Nat) (qs : List (Rule α)) (evs : List (Event α))
    (to_date : Option DOD) :
    OccurrenceQuerySet.for_period now qs none to_date true
        = OccurrenceQuerySet.for_period now qs none to_date false
    ∧ EventQuerySet.for_period now evs none to_date true
        = EventQuerySet.for_period now evs none to_date false := by
  constructor <;> rfl

/-! ### Claim C4: the expansion window edges -/

theorem min_swap_some (t u : Nat) :
    (if u < t then some u else some t) = some (min t u) := by
  rw [Nat.min_def]; split_ifs <;> simp <;> omega

/-- Claim C4 counterexample: a valid daily rule in the final minute of year
9999, expanded with only `from_date` supplied (so the claim asserts an
unbounded upper edge).  Its single generated start passes the claimed
lower edge and there is no `to_date`/`repeat_until` bound, yet expansion
yields nothing: the source caps the window at the sentinel
`datetime(9999, 12, 31, 23, 59)` whenever any window is applied. -/
theorem claim4_counterexample :
    Rule.cleanOk ruleC4
    ∧ ruleC4.«repeat» = some .DAILY
    ∧ ruleC4.repeat_until = none
    ∧ rruleStarts .DAILY ruleC4.start = [ruleC4.start]
    ∧ (as_datetime fromC4 false : Int) - ((ruleC4.«end» : Int) - (ruleC4.start : Int))
        ≤ (ruleC4.start : Int)
    ∧ Rule.all_occurrences ruleC4 (some fromC4) none = [] := by decide

theorem all_occurrences_repeat_eq {α : Type} (r : Rule α) (freq : Freq)
    (h : r.«repeat» = some freq) (from_date to_date : Option DOD) :
    r.all_occurrences from_date to_date = expandRepeatingSpec r freq from_date to_date := by
  simp only [Rule.all_occurrences, expandRepeatingSpec, h]
  rcases to_date with _ | t <;> rcases hru : r.repeat_until with _ | ru <;>
    rcases from_date with _ | f <;>
      simp [min_swap_some, as_datetime]

/-- Claim C4 (amended): for a repeating rule, expansion equals filtering
the capped generated starts by the window whose upper bound is
`min(to_date, end-of-day(repeat_until))` when both are present, whichever
is present otherwise, and the sentinel 9999-12-31T23:59 when neither is
present but `from_date` is; the lower edge is `from_date` shifted earlier
by the rule's duration (sentinel 0001-01-01T00:00 when absent), both edges
inclusive; no filtering happens only when no bound at all is supplied. -/
theorem claim4_amended {α : Type} (r : Rule α) (freq : Freq)
    (h : r.«repeat» = some freq) (from_date to_date : Option DOD) :
    r.all_occurrences from_date to_date = expandRepeatingSpec r freq from_date to_date :=
  all_occurrences_repeat_eq r freq h from_date to_date

theorem claim4_witness :
    Rule.all_occurrences ruleC1 (some (.date (mkDate 2021 1 10)))
        (some (.date (mkDate 2021 1 31)))
      = expandRepeatingSpec ruleC1 .WEEKLY (some (.date (mkDate 2021 1 10)))
          (some (.date (mkDate 2021 1 31))) :=
  claim4_amended ruleC1 .WEEKLY rfl _ _

/-! ### Monotonicity of the generated starts, and claim C3 -/

theorem civilFromDays_bounds (n : Nat) :
    1 ≤ (civilFromDays n).1 ∧ 1 ≤ (civilFromDays n).2.1 ∧ (civilFromDays n).2.1 ≤ 12
      ∧ 1 ≤ (civilFromDays n).2.2 := by
  simp only [civilFromDays]
  split_ifs <;> refine ⟨?_, ?_, ?_, ?_⟩ <;> simp_all <;> omega

theorem dayval_lt_succ (s : Nat) : dayval s < dayval (s + 1) := by
  unfold dayval
  omega

theorem dayval_strictMono : StrictMono dayval :=
  strictMono_nat_of_lt_succ dayval_lt_succ

theorem dayval_ge_306 {s : Nat} (hs : 10 ≤ s) : 306 ≤ dayval s := by
  have h10 : dayval 10 = 306 := by decide
  calc (306 : Nat) = dayval 10 := h10.symm
    _ ≤ dayval s := dayval_strictMono.monotone hs

theorem daysFromCivil_eq_dayval (y m d : Nat) (hy : 1 ≤ y) (hm1 : 1 ≤ m)
    (hm2 : m ≤ 12) (hd : 1 ≤ d) :
    daysFromCivil y m d = dayval (y * 12 + m - 3) + d - 1 - 306 := by
  simp only [daysFromCivil, dayval]
  split_ifs <;> omega

theorem freqCandidate_mono (freq : Freq) (start : Nat) {k k' v v' : Nat} (hkk : k < k')
    (h1 : freqCandidate freq start k = some v)
    (h2 : freqCandidate freq start k' = some v') : v < v' := by
  obtain ⟨hy, hm1, hm2, hd⟩ := civilFromDays_bounds (start / 86400)
  cases freq <;> simp only [freqCandidate, Option.some.injEq] at h1 h2
  · omega
  · omega
  · -- MONTHLY
    split at h1
    case isFalse => exact absurd h1 (by simp)
    split at h2
    case isFalse => exact absurd h2 (by simp)
    rw [Option.some.injEq] at h1 h2
    subst h1; subst h2
    set c := civilFromDays (start / 86400) with hc
    set t := c.1 * 12 + (c.2.1 - 1) + k with ht
    set u := c.1 * 12 + (c.2.1 - 1) + k' with hu
    have htge : 12 ≤ t := by omega
    have huge : 12 ≤ u := by omega
    rw [daysFromCivil_eq_dayval (t / 12) (t % 12 + 1) c.2.2 (by omega) (by omega) (by omega)
          (by omega),
        daysFromCivil_eq_dayval (u / 12) (u % 12 + 1) c.2.2 (by omega) (by omega) (by omega)
          (by omega)]
    have he1 : (t / 12) * 12 + (t % 12 + 1) - 3 = t - 2 := by omega
    have he2 : (u / 12) * 12 + (u % 12 + 1) - 3 = u - 2 := by omega
    rw [he1, he2]
    have hlt : dayval (t - 2) < dayval (u - 2) := dayval_strictMono (by omega)
    have hge : 306 ≤ dayval (t - 2) := dayval_ge_306 (by omega)
    omega
  · -- YEARLY
    split at h1
    case isFalse => exact absurd h1 (by simp)
    split at h2
    case isFalse => exact absurd h2 (by simp)
    rw [Option.some.injEq] at h1 h2
    subst h1; subst h2
    set c := civilFromDays (start / 86400) with hc
    rw [daysFromCivil_eq_dayval (c.1 + k) c.2.1 c.2.2 (by omega) (by omega) (by omega)
          (by omega),
        daysFromCivil_eq_dayval (c.1 + k') c.2.1 c.2.2 (by omega) (by omega) (by omega)
          (by omega)]
    have hlt : dayval ((c.1 + k) * 12 + c.2.1 - 3) < dayval ((c.1 + k') * 12 + c.2.1 - 3) :=
      dayval_strictMono (by omega)
    have hge : 306 ≤ dayval ((c.1 + k) * 12 + c.2.1 - 3) := dayval_ge_306 (by omega)
    omega

theorem rruleStarts_pairwise (freq : Freq) (start : Nat) :
    (rruleStarts freq start).Pairwise (· < ·) := by
  rw [rruleStarts_eq]
  refine List.Pairwise.sublist (List.take_sublist _ _) ?_
  refine List.pairwise_filterMap.mpr ?_
  refine (List.pairwise_lt_range' 0 (candidateBound freq start) 1 (by simp)).imp ?_
  intro k k' hkk v hv v' hv'
  exact freqCandidate_mono freq start hkk hv hv'

theorem all_occurrences_pairwise {α : Type} (r : Rule α) (from_date to_date : Option DOD) :
    (r.all_occurrences from_date to_date).Pairwise (fun a b => a.1 < b.1) := by
  rcases hr : r.«repeat» with _ | freq
  · simp only [Rule.all_occurrences, hr]
    split <;> simp
  · simp only [Rule.all_occurrences, hr]
    rw [List.pairwise_map]
    have hP := rruleStarts_pairwise freq r.start
    split
    · exact hP
    · exact List.Pairwise.filter _ hP

theorem all_occurrences_lower_bound {α : Type} (r : Rule α) (f : DOD)
    (to_date : Option DOD) :
    ∀ inst ∈ r.all_occurrences (some f) to_date,
      (match r.«repeat» with
       | none => as_datetime f false ≤ inst.1
       | some _ =>
           (as_datetime f false : Int) - ((r.«end» : Int) - (r.start : Int))
             ≤ (inst.1 : Int)) := by
  intro inst hmem
  rcases hr : r.«repeat» with _ | freq <;> simp only [hr]
  · simp only [Rule.all_occurrences, hr, Option.map_some] at hmem
    split at hmem
    case isFalse => simp at hmem
    case isTrue hcond =>
      rcases List.mem_singleton.mp hmem with rfl
      have := (Bool.and_eq_true _ _).mp hcond
      simpa using this.1
  · rw [all_occurrences_repeat_eq r freq hr] at hmem
    simp only [expandRepeatingSpec, Option.isNone_some, Bool.false_and, Bool.false_eq_true,
      if_false, List.mem_map, List.mem_filter, Bool.and_eq_true, decide_eq_true_eq] at hmem
    obtain ⟨s, ⟨hsmem, hlo, hhi⟩, rfl⟩ := hmem
    exact hlo

/-- Claim C3 counterexample: for the valid daily 09:00–10:00 rule and
`from_date` = 2021-01-02T09:30, `next_occurrence` returns the instance
starting 2021-01-02T09:00 — strictly before `from_date` — even though an
instance with start at or after `from_date` is yielded (2021-01-03T09:00):
the returned instance is not "the earliest yielded instance whose start is
at or after from_date". -/
theorem claim3_counterexample :
    Rule.cleanOk ruleC3
    ∧ Rule.next_occurrence 0 ruleC3 (some fromC3) none
        = some (mkDT 2021 1 2 9 0 0, mkDT 2021 1 2 10 0 0, ())
    ∧ mkDT 2021 1 2 9 0 0 < as_datetime fromC3 false
    ∧ (mkDT 2021 1 3 9 0 0, mkDT 2021 1 3 10 0 0, ())
        ∈ Rule.all_occurrences ruleC3 (some fromC3) none := by decide

/-- Claim C3 (amended): `next_occurrence` (with `from_date` defaulting to
the current moment) returns the earliest instance of the rule's occurrence
stream seeded with that `from_date`, or none exactly when that stream is
empty; the yielded starts are bounded below by `from_date` for a
non-repeating rule but only by `from_date - (end - start)` for a repeating
one, so the returned instance's start may precede `from_date` by up to the
rule's duration. -/
theorem claim3_amended {α : Type} (now : Nat) (r : Rule α)
    (from_date to_date : Option DOD) :
    (r.next_occurrence now from_date to_date = none ↔
      r.all_occurrences (some (from_date.getD (.datetime now))) to_date = [])
    ∧ ∀ i, r.next_occurrence now from_date to_date = some i →
        i ∈ r.all_occurrences (some (from_date.getD (.datetime now))) to_date
        ∧ (∀ j ∈ r.all_occurrences (some (from_date.getD (.datetime now))) to_date,
            i.1 ≤ j.1)
        ∧ (match r.«repeat» with
           | none => as_datetime (from_date.getD (.datetime now)) false ≤ i.1
           | some _ =>
               (as_datetime (from_date.getD (.datetime now)) false : Int)
                 - ((r.«end» : Int) - (r.start : Int)) ≤ (i.1 : Int)) := by
  constructor
  · rw [Rule.next_occurrence, first_item, List.head?_eq_none_iff]
  · intro i hi
    rw [Rule.next_occurrence, first_item] at hi
    rcases hl : r.all_occurrences (some (from_date.getD (.datetime now))) to_date
      with _ | ⟨a, rest⟩
    · rw [hl] at hi; simp at hi
    · rw [hl] at hi
      simp only [List.head?_cons, Option.some.injEq] at hi
      subst hi
      have hpair := all_occurrences_pairwise r (some (from_date.getD (.datetime now))) to_date
      rw [hl] at hpair
      refine ⟨List.mem_cons_self _ _, ?_, ?_⟩
      · intro j hj
        rcases List.mem_cons.mp hj with rfl | hj
        · exact le_refl _
        · exact le_of_lt (List.rel_of_pairwise_cons hpair hj)
      · exact all_occurrences_lower_bound r (from_date.getD (.datetime now)) to_date a
          (by rw [hl]; exact List.mem_cons_self _ _)

theorem claim3_witness :
    (mkDT 2021 1 2 9 0 0, mkDT 2021 1 2 10 0 0, ())
      ∈ Rule.all_occurrences ruleC3 (some fromC3) none := by
  have h := (claim3_amended 0 ruleC3 (some fromC3) none).2
    (mkDT 2021 1 2 9 0 0, mkDT 2021 1 2 10 0 0, ()) (by decide)
  exact h.1

/-! ### The k-way merge: structural lemmas -/

theorem selectGroup_decomp {β : Type} (g : (Nat × β) × List (Nat × β))
    (gs : List ((Nat × β) × List (Nat × β))) :
    (selectGroup g gs).2.1 ++ (selectGroup g gs).1 :: (selectGroup g gs).2.2 = g :: gs := by
  induction gs generalizing g with
  | nil => simp [selectGroup]
  | cons h hs ih =>
      simp only [selectGroup]
      by_cases hlt : (selectGroup h hs).1.1.1 < g.1.1
      · simp only [hlt, if_pos]
        simpa using congrArg (g :: ·) (ih h)
      · simp [hlt]

theorem sizeGs_append {β : Type} (as bs : List ((Nat × β) × List (Nat × β))) :
    sizeGs (as ++ bs) = sizeGs as + sizeGs bs := by
  simp [sizeGs]

theorem sizeGs_advance {β : Type} (c : (Nat × β) × List (Nat × β)) :
    sizeGs (advance c) + 1 = sizeGs [c] := by
  obtain ⟨x, rest⟩ := c
  cases rest <;> simp [advance, sizeGs]
  omega

theorem sizeGs_select_step {β : Type} (g : (Nat × β) × List (Nat × β))
    (gs : List ((Nat × β) × List (Nat × β))) :
    sizeGs ((selectGroup g gs).2.1 ++ advance (selectGroup g gs).1 ++ (selectGroup g gs).2.2) + 1
      = sizeGs (g :: gs) := by
  have hd := selectGroup_decomp g gs
  have h1 : sizeGs (g :: gs)
      = sizeGs ((selectGroup g gs).2.1 ++ (selectGroup g gs).1 :: (selectGroup g gs).2.2) := by
    rw [hd]
  rw [h1]
  have h2 : (selectGroup g gs).1 :: (selectGroup g gs).2.2
      = [(selectGroup g gs).1] ++ (selectGroup g gs).2.2 := rfl
  rw [h2, sizeGs_append, sizeGs_append, sizeGs_append, sizeGs_append,
    ← sizeGs_advance (selectGroup g gs).1]
  omega

theorem selectGroup_min {β : Type} (g : (Nat × β) × List (Nat × β))
    (gs : List ((Nat × β) × List (Nat × β))) :
    ∀ h ∈ g :: gs, (selectGroup g gs).1.1.1 ≤ h.1.1 := by
  induction gs generalizing g with
  | nil => intro h hm; simp at hm; subst hm; simp [selectGroup]
  | cons p ps ih =>
      intro h hm
      simp only [selectGroup]
      by_cases hlt : (selectGroup p ps).1.1.1 < g.1.1
      · simp only [hlt, if_pos]
        rcases List.mem_cons.mp hm with rfl | hm
        · exact le_of_lt hlt
        · exact ih p h hm
      · simp only [hlt, if_neg]
        push_neg at hlt
        rcases List.mem_cons.mp hm with rfl | hm
        · exact le_refl _
        · exact le_trans hlt (ih p h hm)

theorem selectGroup_before_gt {β : Type} (g : (Nat × β) × List (Nat × β))
    (gs : List ((Nat × β) × List (Nat × β))) :
    ∀ h ∈ (selectGroup g gs).2.1, (selectGroup g gs).1.1.1 < h.1.1 := by
  induction gs generalizing g with
  | nil => intro h hm; simp [selectGroup] at hm
  | cons p ps ih =>
      intro h hm
      simp only [selectGroup] at hm ⊢
      by_cases hlt : (selectGroup p ps).1.1.1 < g.1.1
      · simp only [hlt, if_pos] at hm ⊢
        rcases List.mem_cons.mp hm with rfl | hm
        · exact hlt
        · exact ih p h hm
      · simp only [hlt, if_neg] at hm
        simp at hm

theorem selectGroup_self_mem {β : Type} (g : (Nat × β) × List (Nat × β))
    (gs : List ((Nat × β) × List (Nat × β))) :
    (selectGroup g gs).1 ∈ g :: gs := by
  have hd := selectGroup_decomp g gs
  rw [← hd]
  exact List.mem_append_right _ (List.mem_cons_self _ _)

theorem itemsGs_append {β : Type} (as bs : List ((Nat × β) × List (Nat × β))) :
    itemsGs (as ++ bs) = itemsGs as ++ itemsGs bs := by
  simp [itemsGs]

theorem itemsGs_cons {β : Type} (g : (Nat × β) × List (Nat × β))
    (gs : List ((Nat × β) × List (Nat × β))) :
    itemsGs (g :: gs) = (g.1 :: g.2) ++ itemsGs gs := by
  simp [itemsGs]

theorem itemsGs_advance {β : Type} (c : (Nat × β) × List (Nat × β)) :
    itemsGs (advance c) = c.2 := by
  obtain ⟨x, rest⟩ := c
  cases rest <;> simp [advance, itemsGs]

theorem itemsGs_length {β : Type} (gs : List ((Nat × β) × List (Nat × β))) :
    (itemsGs gs).length = sizeGs gs := by
  induction gs with
  | nil => simp [itemsGs, sizeGs]
  | cons g gs ih => rw [itemsGs_cons]; simp [sizeGs] at ih ⊢; omega

theorem sizeGs_eq_zero {β : Type} {gs : List ((Nat × β) × List (Nat × β))}
    (h : sizeGs gs = 0) : gs = [] := by
  cases gs with
  | nil => rfl
  | cons g gs => simp [sizeGs] at h

theorem mergeGroupsAux_fuel {β : Type} :
    ∀ fuel fuel' (gs : List ((Nat × β) × List (Nat × β))) (limit : Option Nat),
      sizeGs gs ≤ fuel → sizeGs gs ≤ fuel' →
      mergeGroupsAux fuel gs limit = mergeGroupsAux fuel' gs limit := by
  intro fuel
  induction fuel with
  | zero =>
      intro fuel' gs limit h h'
      rw [sizeGs_eq_zero (Nat.le_zero.mp h)]
      cases fuel' <;> rfl
  | succ fuel ih =>
      intro fuel' gs limit h h'
      cases gs with
      | nil => cases fuel' <;> rfl
      | cons g gs =>
          cases fuel' with
          | zero =>
              exfalso
              have : 1 ≤ sizeGs (g :: gs) := by simp [sizeGs]; omega
              omega
          | succ fuel' =>
              simp only [mergeGroupsAux]
              have hsz := sizeGs_select_step g gs
              split
              · rfl
              · congr 1
                exact ih fuel' _ _ (by omega) (by omega)

theorem mergeGroups_nil {β : Type} (limit : Option Nat) :
    mergeGroups ([] : List ((Nat × β) × List (Nat × β))) limit = [] := by
  rfl

theorem mergeGroups_cons {β : Type} (g : (Nat × β) × List (Nat × β))
    (gs : List ((Nat × β) × List (Nat × β))) (limit : Option Nat) :
    mergeGroups (g :: gs) limit =
      if limit = some 0 then []
      else
        (selectGroup g gs).1.1 ::
          mergeGroups
            ((selectGroup g gs).2.1 ++ advance (selectGroup g gs).1 ++ (selectGroup g gs).2.2)
            (limit.map (· - 1)) := by
  have h1 : 1 ≤ sizeGs (g :: gs) := by simp [sizeGs]; omega
  obtain ⟨m, hm⟩ : ∃ m, sizeGs (g :: gs) = m + 1 :=
    ⟨sizeGs (g :: gs) - 1, by omega⟩
  have hsz := sizeGs_select_step g gs
  rw [mergeGroups, hm]
  simp only [mergeGroupsAux]
  split
  · rfl
  · congr 1
    exact mergeGroupsAux_fuel m _ _ _ (by omega) (le_refl _)

theorem mergeGroups_perm {β : Type} :
    ∀ n (gs : List ((Nat × β) × List (Nat × β))), sizeGs gs ≤ n →
      (mergeGroups gs none).Perm (itemsGs gs) := by
  intro n
  induction n with
  | zero =>
      intro gs h
      rw [sizeGs_eq_zero (Nat.le_zero.mp h)]
      simp [mergeGroups_nil, itemsGs]
  | succ n ih =>
      intro gs h
      cases gs with
      | nil => simp [mergeGroups_nil, itemsGs]
      | cons g gs =>
          rw [mergeGroups_cons]
          simp only [reduceCtorEq, if_false, Option.map_none]
          have hd := selectGroup_decomp g gs
          have hsz := sizeGs_select_step g gs
          have hih := ih ((selectGroup g gs).2.1 ++ advance (selectGroup g gs).1
              ++ (selectGroup g gs).2.2) (by omega)
          refine (hih.cons _).trans ?_
          rw [itemsGs_append, itemsGs_append, itemsGs_advance, ← hd,
            itemsGs_append, itemsGs_cons, List.append_assoc, List.cons_append]
          exact List.perm_middle.symm

theorem advance_eq {β : Type} (c : (Nat × β) × List (Nat × β)) :
    ∀ h2 ∈ advance c, h2.1 :: h2.2 = c.2 := by
  obtain ⟨x, rest⟩ := c
  cases rest with
  | nil => intro h2 hm; simp [advance] at hm
  | cons y ys =>
      intro h2 hm
      simp only [advance, List.mem_singleton] at hm
      subst hm
      rfl

theorem mergeGroups_take {β : Type} :
    ∀ n (gs : List ((Nat × β) × List (Nat × β))), sizeGs gs ≤ n →
      ∀ k, mergeGroups gs (some k) = (mergeGroups gs none).take k := by
  intro n
  induction n with
  | zero =>
      intro gs h k
      rw [sizeGs_eq_zero (Nat.le_zero.mp h)]
      simp [mergeGroups_nil]
  | succ n ih =>
      intro gs h k
      cases gs with
      | nil => simp [mergeGroups_nil]
      | cons g gs =>
          rw [mergeGroups_cons, mergeGroups_cons]
          have hsz := sizeGs_select_step g gs
          cases k with
          | zero => simp
          | succ k =>
              simp only [Option.some.injEq, Nat.succ_ne_zero, if_false, reduceCtorEq,
                Option.map_some, Option.map_none, Nat.add_sub_cancel, List.take_succ_cons]
              congr 1
              exact ih _ (by omega) k

theorem mergeGroups_length_none {β : Type} (gs : List ((Nat × β) × List (Nat × β))) :
    (mergeGroups gs none).length = sizeGs gs := by
  rw [(mergeGroups_perm (sizeGs gs) gs (le_refl _)).length_eq, itemsGs_length]

theorem mergeGroups_sorted {β : Type} :
    ∀ n (gs : List ((Nat × β) × List (Nat × β))), sizeGs gs ≤ n →
      (∀ g ∈ gs, (g.1 :: g.2).Pairwise (fun a b => a.1 ≤ b.1)) →
      (mergeGroups gs none).Pairwise (fun a b => a.1 ≤ b.1) := by
  intro n
  induction n with
  | zero =>
      intro gs h hs
      rw [sizeGs_eq_zero (Nat.le_zero.mp h)]
      simp [mergeGroups_nil]
  | succ n ih =>
      intro gs h hs
      cases gs with
      | nil => simp [mergeGroups_nil]
      | cons g gs =>
          rw [mergeGroups_cons]
          simp only [reduceCtorEq, if_false, Option.map_none]
          have hd := selectGroup_decomp g gs
          have hsz := sizeGs_select_step g gs
          have hcmem := selectGroup_self_mem g gs
          have hcsorted := hs _ hcmem
          -- groups of the advanced state are sorted
          have hs2 : ∀ h2 ∈ (selectGroup g gs).2.1 ++ advance (selectGroup g gs).1
              ++ (selectGroup g gs).2.2, (h2.1 :: h2.2).Pairwise (fun a b => a.1 ≤ b.1) := by
            intro h2 hm
            rcases List.mem_append.mp hm with hm1 | hpost
            · rcases List.mem_append.mp hm1 with hpre | hadv
              · refine hs _ ?_
                rw [← hd]
                exact List.mem_append_left _ hpre
              · rw [advance_eq _ h2 hadv]
                exact (List.pairwise_cons.mp hcsorted).2
            · refine hs _ ?_
              rw [← hd]
              exact List.mem_append_right _ (List.mem_cons_of_mem _ hpost)
          refine List.pairwise_cons.mpr ⟨?_, ih _ (by omega) hs2⟩
          intro y hy
          have hyitems : y ∈ itemsGs ((selectGroup g gs).2.1 ++ advance (selectGroup g gs).1
              ++ (selectGroup g gs).2.2) :=
            (mergeGroups_perm _ _ (le_refl _)).mem_iff.mp hy
          rw [itemsGs_append, itemsGs_append, itemsGs_advance] at hyitems
          have hmin := selectGroup_min g gs
          rcases List.mem_append.mp hyitems with hm1 | hpost
          · rcases List.mem_append.mp hm1 with hpre | hadv
            · -- y is in a group before the chosen one
              rw [itemsGs] at hpre
              rcases List.mem_flatten.mp hpre with ⟨l, hl, hyl⟩
              rcases List.mem_map.mp hl with ⟨grp, hgrp, rfl⟩
              have hgmem : grp ∈ g :: gs := by
                rw [← hd]; exact List.mem_append_left _ hgrp
              have hsg := hs _ hgmem
              have hhead : grp.1.1 ≤ y.1 := by
                rcases List.mem_cons.mp hyl with rfl | hyl
                · exact le_refl _
                · exact List.rel_of_pairwise_cons hsg hyl
              exact le_trans (hmin grp hgmem) hhead
            · -- y is in the chosen group's remainder
              exact List.rel_of_pairwise_cons hcsorted hadv
          · rw [itemsGs] at hpost
            rcases List.mem_flatten.mp hpost with ⟨l, hl, hyl⟩
            rcases List.mem_map.mp hl with ⟨grp, hgrp, rfl⟩
            have hgmem : grp ∈ g :: gs := by
              rw [← hd]; exact List.mem_append_right _ (List.mem_cons_of_mem _ hgrp)
            have hsg := hs _ hgmem
            have hhead : grp.1.1 ≤ y.1 := by
              rcases List.mem_cons.mp hyl with rfl | hyl
              · exact le_refl _
              · exact List.rel_of_pairwise_cons hsg hyl
            exact le_trans (hmin grp hgmem) hhead

theorem advance_cases {β : Type} (c : (Nat × β) × List (Nat × β)) :
    (c.2 = [] ∧ advance c = []) ∨ ∃ y ys, c.2 = y :: ys ∧ advance c = [(y, ys)] := by
  obtain ⟨x, rest⟩ := c
  cases rest <;> simp [advance]

theorem mergeGroups_sublist {β : Type} :
    ∀ n (gs : List ((Nat × β) × List (Nat × β))), sizeGs gs ≤ n →
      ∀ g ∈ gs, (g.1 :: g.2).Sublist (mergeGroups gs none) := by
  intro n
  induction n with
  | zero =>
      intro gs h g hg
      rw [sizeGs_eq_zero (Nat.le_zero.mp h)] at hg
      simp at hg
  | succ n ih =>
      intro gs h grp hgrp
      cases gs with
      | nil => simp at hgrp
      | cons g gs =>
          rw [mergeGroups_cons]
          simp only [reduceCtorEq, if_false, Option.map_none]
          have hd := selectGroup_decomp g gs
          have hsz := sizeGs_select_step g gs
          rw [← hd] at hgrp
          rcases List.mem_append.mp hgrp with hpre | hcpost
          · exact (ih ((selectGroup g gs).2.1 ++ advance (selectGroup g gs).1
              ++ (selectGroup g gs).2.2) (by omega) grp
              (List.mem_append_left _ (List.mem_append_left _ hpre))).cons _
          · rcases List.mem_cons.mp hcpost with rfl | hpost
            · refine List.Sublist.cons₂ _ ?_
              rcases advance_cases (selectGroup g gs).1 with ⟨h2, _⟩ | ⟨y, ys, h2, hadv⟩
              · rw [h2]; exact List.nil_sublist _
              · have hmem : (y, ys) ∈ (selectGroup g gs).2.1 ++ advance (selectGroup g gs).1
                    ++ (selectGroup g gs).2.2 := by
                  refine List.mem_append_left _ (List.mem_append_right _ ?_)
                  rw [hadv]; exact List.mem_singleton.mpr rfl
                have hsub := ih ((selectGroup g gs).2.1 ++ advance (selectGroup g gs).1
                    ++ (selectGroup g gs).2.2) (by omega) (y, ys) hmem
                rw [h2]
                exact hsub
            · exact (ih ((selectGroup g gs).2.1 ++ advance (selectGroup g gs).1
                ++ (selectGroup g gs).2.2) (by omega) grp
                (List.mem_append_right _ hpost)).cons _

theorem mergeGroups_stable :
    ∀ n (gs : List ((Nat × Nat) × List (Nat × Nat))), sizeGs gs ≤ n →
      (∀ g ∈ gs, (g.1 :: g.2).Pairwise (fun a b => a.1 ≤ b.1)) →
      (∀ g ∈ gs, ∀ x ∈ g.1 :: g.2, x.2 = g.1.2) →
      gs.Pairwise (fun g h => g.1.2 < h.1.2) →
      (mergeGroups gs none).Pairwise
        (fun a b => a.1 < b.1 ∨ (a.1 = b.1 ∧ a.2 ≤ b.2)) := by
  intro n
  induction n with
  | zero =>
      intro gs h _ _ _
      rw [sizeGs_eq_zero (Nat.le_zero.mp h)]
      simp [mergeGroups_nil]
  | succ n ih =>
      intro gs h hs hu hinc
      cases gs with
      | nil => simp [mergeGroups_nil]
      | cons g gs =>
          rw [mergeGroups_cons]
          simp only [reduceCtorEq, if_false, Option.map_none]
          have hd := selectGroup_decomp g gs
          have hsz := sizeGs_select_step g gs
          have hcmem := selectGroup_self_mem g gs
          have hcsorted := hs _ hcmem
          have hcuni := hu _ hcmem
          rw [← hd] at hinc
          have hinc2 := List.pairwise_append.mp hinc
          have hpostrel := List.pairwise_cons.mp hinc2.2.1
          -- sortedness of advanced-state groups
          have hs2 : ∀ h2 ∈ (selectGroup g gs).2.1 ++ advance (selectGroup g gs).1
              ++ (selectGroup g gs).2.2, (h2.1 :: h2.2).Pairwise (fun a b => a.1 ≤ b.1) := by
            intro h2 hm
            rcases List.mem_append.mp hm with hm1 | hpost
            · rcases List.mem_append.mp hm1 with hpre | hadv
              · refine hs _ ?_
                rw [← hd]
                exact List.mem_append_left _ hpre
              · rw [advance_eq _ h2 hadv]
                exact (List.pairwise_cons.mp hcsorted).2
            · refine hs _ ?_
              rw [← hd]
              exact List.mem_append_right _ (List.mem_cons_of_mem _ hpost)
          -- uniform tags of advanced-state groups
          have hu2 : ∀ h2 ∈ (selectGroup g gs).2.1 ++ advance (selectGroup g gs).1
              ++ (selectGroup g gs).2.2, ∀ x ∈ h2.1 :: h2.2, x.2 = h2.1.2 := by
            intro h2 hm
            rcases List.mem_append.mp hm with hm1 | hpost
            · rcases List.mem_append.mp hm1 with hpre | hadv
              · refine hu _ ?_
                rw [← hd]
                exact List.mem_append_left _ hpre
              · intro x hx
                rw [advance_eq _ h2 hadv] at hx
                have hx2 : x.2 = (selectGroup g gs).1.1.2 :=
                  hcuni x (List.mem_cons_of_mem _ hx)
                have hh2 : h2.1.2 = (selectGroup g gs).1.1.2 := by
                  refine hcuni h2.1 (List.mem_cons_of_mem _ ?_)
                  have := advance_eq _ h2 hadv
                  rw [← this]
                  exact List.mem_cons_self _ _
                rw [hx2, hh2]
            · refine hu _ ?_
              rw [← hd]
              exact List.mem_append_right _ (List.mem_cons_of_mem _ hpost)
          -- advance keeps the chosen group's tag
          have hadvtag : ∀ h2 ∈ advance (selectGroup g gs).1,
              h2.1.2 = (selectGroup g gs).1.1.2 := by
            intro h2 hadv
            refine hcuni h2.1 (List.mem_cons_of_mem _ ?_)
            have := advance_eq _ h2 hadv
            rw [← this]
            exact List.mem_cons_self _ _
          -- strict tag order of advanced-state groups
          have hinc3 : ((selectGroup g gs).2.1 ++ advance (selectGroup g gs).1
              ++ (selectGroup g gs).2.2).Pairwise (fun g h => g.1.2 < h.1.2) := by
            rw [List.append_assoc]
            refine List.pairwise_append.mpr ⟨hinc2.1, ?_, ?_⟩
            · refine List.pairwise_append.mpr ⟨?_, hpostrel.2, ?_⟩
              · rcases advance_cases (selectGroup g gs).1 with ⟨_, hadv⟩ | ⟨y, ys, _, hadv⟩ <;>
                  rw [hadv] <;> simp
              · intro a ha b hb
                rw [hadvtag a ha]
                exact hpostrel.1 b hb
            · intro a ha b hb
              rcases List.mem_append.mp hb with hbadv | hbpost
              · rw [hadvtag b hbadv]
                exact hinc2.2.2 a ha _ (List.mem_cons_self _ _)
              · exact hinc2.2.2 a ha b (List.mem_cons_of_mem _ hbpost)
          refine List.pairwise_cons.mpr ⟨?_, ih _ (by omega) hs2 hu2 hinc3⟩
          intro y hy
          have hyitems : y ∈ itemsGs ((selectGroup g gs).2.1 ++ advance (selectGroup g gs).1
              ++ (selectGroup g gs).2.2) :=
            (mergeGroups_perm _ _ (le_refl _)).mem_iff.mp hy
          rw [itemsGs_append, itemsGs_append, itemsGs_advance] at hyitems
          have hmin := selectGroup_min g gs
          have hbef := selectGroup_before_gt g gs
          rcases List.mem_append.mp hyitems with hm1 | hpost
          · rcases List.mem_append.mp hm1 with hpre | hadv
            · -- y in a group strictly greater: left disjunct
              rw [itemsGs] at hpre
              rcases List.mem_flatten.mp hpre with ⟨l, hl, hyl⟩
              rcases List.mem_map.mp hl with ⟨grp, hgrp, rfl⟩
              have hgmem : grp ∈ g :: gs := by
                rw [← hd]; exact List.mem_append_left _ hgrp
              have hhead : grp.1.1 ≤ y.1 := by
                rcases List.mem_cons.mp hyl with rfl | hyl
                · exact le_refl _
                · exact List.rel_of_pairwise_cons (hs _ hgmem) hyl
              exact Or.inl (lt_of_lt_of_le (hbef grp hgrp) hhead)
            · -- y in the chosen group's remainder: same tag
              have hley : (selectGroup g gs).1.1.1 ≤ y.1 :=
                List.rel_of_pairwise_cons hcsorted hadv
              have htagy : y.2 = (selectGroup g gs).1.1.2 :=
                hcuni y (List.mem_cons_of_mem _ hadv)
              rcases lt_or_eq_of_le hley with hlt | heq
              · exact Or.inl hlt
              · exact Or.inr ⟨heq.symm ▸ rfl, by rw [htagy]⟩
          · -- y in a later group: larger tag
            rw [itemsGs] at hpost
            rcases List.mem_flatten.mp hpost with ⟨l, hl, hyl⟩
            rcases List.mem_map.mp hl with ⟨grp, hgrp, rfl⟩
            have hgmem : grp ∈ g :: gs := by
              rw [← hd]; exact List.mem_append_right _ (List.mem_cons_of_mem _ hgrp)
            have hhead : grp.1.1 ≤ y.1 := by
              rcases List.mem_cons.mp hyl with rfl | hyl
              · exact le_refl _
              · exact List.rel_of_pairwise_cons (hs _ hgmem) hyl
            have hle : (selectGroup g gs).1.1.1 ≤ y.1 :=
              le_trans (hmin grp hgmem) hhead
            have htagy : y.2 = grp.1.2 := hu _ hgmem y hyl
            have htaglt : (selectGroup g gs).1.1.2 < grp.1.2 := hpostrel.1 grp hgrp
            rcases lt_or_eq_of_le hle with hlt | heq
            · exact Or.inl hlt
            · exact Or.inr ⟨heq.symm ▸ rfl, by rw [htagy]; exact le_of_lt htaglt⟩

theorem itemsGs_initGroups {β : Type} (gens : List (List (Nat × β))) :
    itemsGs (initGroups gens) = gens.flatten := by
  induction gens with
  | nil => simp [initGroups, itemsGs]
  | cons l ls ih =>
      cases l with
      | nil => rw [initGroups]; simp [ih]
      | cons x xs => rw [initGroups, itemsGs_cons, ih]; simp

theorem sizeGs_initGroups {β : Type} (gens : List (List (Nat × β))) :
    sizeGs (initGroups gens) = (gens.map List.length).sum := by
  have h1 := itemsGs_length (initGroups gens)
  rw [itemsGs_initGroups] at h1
  rw [← h1, List.length_flatten]

theorem initGroups_sorted {β : Type} (gens : List (List (Nat × β)))
    (hs : ∀ l ∈ gens, l.Pairwise (fun a b => a.1 ≤ b.1)) :
    ∀ g ∈ initGroups gens, (g.1 :: g.2).Pairwise (fun a b => a.1 ≤ b.1) := by
  induction gens with
  | nil => intro g hg; simp [initGroups] at hg
  | cons l ls ih =>
      intro g hg
      cases l with
      | nil =>
          rw [initGroups] at hg
          exact ih (fun l hl => hs l (List.mem_cons_of_mem _ hl)) g hg
      | cons x xs =>
          rw [initGroups] at hg
          rcases List.mem_cons.mp hg with rfl | hg
          · exact hs _ (List.mem_cons_self _ _)
          · exact ih (fun l hl => hs l (List.mem_cons_of_mem _ hl)) g hg

theorem initGroups_mem {β : Type} (gens : List (List (Nat × β))) :
    ∀ l ∈ gens, l = [] ∨ ∃ g ∈ initGroups gens, g.1 :: g.2 = l := by
  induction gens with
  | nil => intro l hl; simp at hl
  | cons m ms ih =>
      intro l hl
      rcases List.mem_cons.mp hl with rfl | hl
      · cases l with
        | nil => exact Or.inl rfl
        | cons x xs =>
            refine Or.inr ⟨(x, xs), ?_, rfl⟩
            rw [initGroups]
            exact List.mem_cons_self _ _
      · rcases ih l hl with h | ⟨g, hg, he⟩
        · exact Or.inl h
        · refine Or.inr ⟨g, ?_, he⟩
          cases m with
          | nil => rw [initGroups]; exact hg
          | cons x xs => rw [initGroups]; exact List.mem_cons_of_mem _ hg

theorem initGroups_tagged :
    ∀ (b : Nat) (tgens : List (List (Nat × Nat))), TaggedFrom b tgens →
      (∀ g ∈ initGroups tgens, ∀ x ∈ g.1 :: g.2, x.2 = g.1.2)
      ∧ (initGroups tgens).Pairwise (fun g h => g.1.2 < h.1.2)
      ∧ (∀ g ∈ initGroups tgens, b ≤ g.1.2) := by
  intro b tgens
  induction tgens generalizing b with
  | nil => intro _; refine ⟨?_, ?_, ?_⟩ <;> simp [initGroups]
  | cons l ls ih =>
      intro ht
      obtain ⟨hl, hls⟩ := ht
      obtain ⟨ihu, ihp, ihb⟩ := ih (b + 1) hls
      cases l with
      | nil =>
          rw [initGroups]
          exact ⟨ihu, ihp, fun g hg => le_trans (Nat.le_succ b) (ihb g hg)⟩
      | cons x xs =>
          rw [initGroups]
          have hxtag : x.2 = b := hl x (List.mem_cons_self _ _)
          refine ⟨?_, ?_, ?_⟩
          · intro g hg
            rcases List.mem_cons.mp hg with rfl | hg
            · intro y hy
              rw [hl y hy, hxtag]
            · exact ihu g hg
          · refine List.pairwise_cons.mpr ⟨?_, ihp⟩
            intro g hg
            have := ihb g hg
            simp only [hxtag]
            omega
          · intro g hg
            rcases List.mem_cons.mp hg with rfl | hg
            · rw [hxtag]
            · exact le_trans (Nat.le_succ b) (ihb g hg)

theorem claim2 {β : Type} (gens : List (List (Nat × β))) (limit : Option Nat)
    (hs : ∀ l ∈ gens, l.Pairwise (fun a b => a.1 ≤ b.1)) :
    (combine_occurrences gens limit).Pairwise (fun a b => a.1 ≤ b.1)
    ∧ (∀ k, combine_occurrences gens (some k) = (combine_occurrences gens none).take k)
    ∧ (combine_occurrences gens limit).length
        = (match limit with
           | none => (gens.map List.length).sum
           | some k => min k ((gens.map List.length).sum))
    ∧ (combine_occurrences gens none).Perm gens.flatten
    ∧ (∀ l ∈ gens, l.Sublist (combine_occurrences gens none))
    ∧ (∀ tgens : List (List (Nat × Nat)),
        (∀ l ∈ tgens, l.Pairwise (fun a b => a.1 ≤ b.1)) → TaggedFrom 0 tgens →
        (combine_occurrences tgens none).Pairwise
          (fun a b => a.1 < b.1 ∨ (a.1 = b.1 ∧ a.2 ≤ b.2)))
    ∧ combine_occurrences
        [Rule.all_occurrences ruleA none none, Rule.all_occurrences ruleB none none] none
      = [(mkDT 2021 2 1 7 0 0, mkDT 2021 2 1 8 0 0, ()),
         (mkDT 2021 2 1 8 0 0, mkDT 2021 2 1 9 0 0, ())] := by
  have hsort : (combine_occurrences gens none).Pairwise (fun a b => a.1 ≤ b.1) :=
    mergeGroups_sorted (sizeGs (initGroups gens)) _ (le_refl _) (initGroups_sorted gens hs)
  have htake : ∀ k, combine_occurrences gens (some k)
      = (combine_occurrences gens none).take k :=
    fun k => mergeGroups_take (sizeGs (initGroups gens)) _ (le_refl _) k
  have hlen : (combine_occurrences gens none).length = (gens.map List.length).sum := by
    rw [combine_occurrences, mergeGroups_length_none, sizeGs_initGroups]
  refine ⟨?_, htake, ?_, ?_, ?_, ?_, ?_⟩
  · cases limit with
    | none => exact hsort
    | some k =>
        rw [htake k]
        exact hsort.sublist (List.take_sublist _ _)
  · cases limit with
    | none => exact hlen
    | some k => rw [htake k, List.length_take, hlen]
  · exact (mergeGroups_perm (sizeGs (initGroups gens)) _ (le_refl _)).trans
      (by rw [itemsGs_initGroups])
  · intro l hl
    rcases initGroups_mem gens l hl with rfl | ⟨g, hg, he⟩
    · exact List.nil_sublist _
    · rw [← he]
      exact mergeGroups_sublist (sizeGs (initGroups gens)) _ (le_refl _) g hg
  · intro tgens hts htag
    obtain ⟨hu, hp, _⟩ := initGroups_tagged 0 tgens htag
    exact mergeGroups_stable (sizeGs (initGroups tgens)) _ (le_refl _)
      (initGroups_sorted tgens hts) hu hp
  · decide

theorem claim2_witness :
    (combine_occurrences ([[(3, 0), (5, 1)], [(1, 2), (4, 3)], [(3, 4)]] :
        List (List (Nat × Nat))) (some 3)).Pairwise (fun a b => a.1 ≤ b.1)
    ∧ (∀ k, combine_occurrences ([[(3, 0), (5, 1)], [(1, 2), (4, 3)], [(3, 4)]] :
          List (List (Nat × Nat))) (some k)
        = (combine_occurrences [[(3, 0), (5, 1)], [(1, 2), (4, 3)], [(3, 4)]] none).take k)
    ∧ (combine_occurrences ([[(3, 0), (5, 1)], [(1, 2), (4, 3)], [(3, 4)]] :
          List (List (Nat × Nat))) (some 3)).length
        = (match (some 3 : Option Nat) with
           | none => ([[(3, 0), (5, 1)], [(1, 2), (4, 3)], [(3, 4)]].map List.length).sum
           | some k =>
               min k (([[(3, 0), (5, 1)], [(1, 2), (4, 3)], [(3, 4)]].map List.length).sum))
    ∧ (combine_occurrences ([[(3, 0), (5, 1)], [(1, 2), (4, 3)], [(3, 4)]] :
          List (List (Nat × Nat))) none).Perm
        ([[(3, 0), (5, 1)], [(1, 2), (4, 3)], [(3, 4)]] : List (List (Nat × Nat))).flatten
    ∧ (∀ l ∈ ([[(3, 0), (5, 1)], [(1, 2), (4, 3)], [(3, 4)]] : List (List (Nat × Nat))),
        l.Sublist (combine_occurrences [[(3, 0), (5, 1)], [(1, 2), (4, 3)], [(3, 4)]] none))
    ∧ (∀ tgens : List (List (Nat × Nat)),
        (∀ l ∈ tgens, l.Pairwise (fun a b => a.1 ≤ b.1)) → TaggedFrom 0 tgens →
        (combine_occurrences tgens none).Pairwise
          (fun a b => a.1 < b.1 ∨ (a.1 = b.1 ∧ a.2 ≤ b.2)))
    ∧ combine_occurrences
        [Rule.all_occurrences ruleA none none, Rule.all_occurrences ruleB none none] none
      = [(mkDT 2021 2 1 7 0 0, mkDT 2021 2 1 8 0 0, ()),
         (mkDT 2021 2 1 8 0 0, mkDT 2021 2 1 9 0 0, ())] :=
  claim2 [[(3, 0), (5, 1)], [(1, 2), (4, 3)], [(3, 4)]] (some 3) (by decide)

/-! ### Claim C5: the two-phase period filter -/

theorem all_occurrences_normalize {α : Type} (r : Rule α) (f : DOD) (t? : Option DOD) :
    r.all_occurrences (some (.datetime (as_datetime f false)))
        (t?.map (fun t => .datetime (as_datetime t true)))
      = r.all_occurrences (some f) t? := by
  simp only [Rule.all_occurrences]
  rcases t? with _ | t <;> simp [as_datetime]

theorem head_isSome_iff {γ : Type} (l : List γ) : l.head?.isSome = !l.isEmpty := by
  cases l <;> rfl

theorem claim5_counterexample :
    Rule.cleanOk ruleC5
    ∧ Rule.all_occurrences ruleC5 (some fromC5) (some toC5) ≠ []
    ∧ OccurrenceQuerySet.for_period 0 [ruleC5] (some fromC5) (some toC5) true = []
    ∧ OccurrenceQuerySet.for_period 0 [ruleC5] (some fromC5) (some toC5) false = [] := by
  decide

theorem claim5_amended {α : Type} (now : Nat) (qs : List (Rule α)) (f : DOD)
    (t? : Option DOD) :
    (OccurrenceQuerySet.for_period now qs (some f) t? true).Sublist
        (OccurrenceQuerySet.for_period now qs (some f) t? false)
    ∧ OccurrenceQuerySet.for_period now qs (some f) t? true
        = (OccurrenceQuerySet.for_period now qs (some f) t? false).filter
            (fun r => !(r.all_occurrences (some f) t?).isEmpty)
    ∧ ∀ r ∈ OccurrenceQuerySet.for_period now qs (some f) t? true,
        r.all_occurrences (some f) t? ≠ [] := by
  have hkey : OccurrenceQuerySet.for_period now qs (some f) t? true
      = (OccurrenceQuerySet.for_period now qs (some f) t? false).filter
          (fun r => !(r.all_occurrences (some f) t?).isEmpty) := by
    simp only [OccurrenceQuerySet.for_period, filter_invalid, if_true, if_false]
    refine List.filter_congr ?_
    intro r hr
    rw [Rule.next_occurrence, first_item]
    simp only [Option.getD_some]
    rw [all_occurrences_normalize r f t?, head_isSome_iff]
  refine ⟨?_, hkey, ?_⟩
  · rw [hkey]
    exact List.filter_sublist _
  · intro r hr
    rw [hkey] at hr
    have := (List.mem_filter.mp hr).2
    simpa using this

theorem claim5_witness :
    (OccurrenceQuerySet.for_period 0 [ruleC3] (some fromC5) (some toC5) true).Sublist
        (OccurrenceQuerySet.for_period 0 [ruleC3] (some fromC5) (some toC5) false)
    ∧ OccurrenceQuerySet.for_period 0 [ruleC3] (some fromC5) (some toC5) true
        = (OccurrenceQuerySet.for_period 0 [ruleC3] (some fromC5) (some toC5) false).filter
            (fun r => !(r.all_occurrences (some fromC5) (some toC5)).isEmpty)
    ∧ ∀ r ∈ OccurrenceQuerySet.for_period 0 [ruleC3] (some fromC5) (some toC5) true,
        r.all_occurrences (some fromC5) (some toC5) ≠ [] :=
  claim5_amended 0 [ruleC3] fromC5 (some toC5)

end Eventtools
